import Mathlib

/- Verification of the EMP message library (src/msg_lib.py).

   The development shallowly embeds the two components the claims concern:
   the byte-level message codec (Message._to_raw / Message._to_tuple) and
   the MsgQueue container.  Byte strings are modelled as `List Nat` whose
   elements are below 256 (Python `str` values in Python 2 are byte
   sequences); multi-byte integers carry explicit `% 2^w` arithmetic.
   The payload serialization (`str(payload)` on encode, `eval(payload)` on
   decode) is a Python-language facility with no byte-level definition in
   the source, so the codec is parameterized by a payload serializer and
   deserializer; properties of `str`/`eval` that a claim depends on (for
   example that `eval('')` raises, or that `eval(str(p)) == p` for the
   dictionary payloads the protocol carries) appear as explicit hypotheses. -/

namespace MsgLib

/-! Big-endian packing primitives, modelling the `struct.pack` calls used in
`Message._to_raw`.  Each returns `none` exactly when `struct.pack` would
raise `struct.error` (values out of range for the format code). -/

/-- Model of `struct.pack(">B", n)`: one unsigned byte. -/
def packB (n : Nat) : Option (List Nat) :=
  if n < 256 then some [n] else none

/-- Model of `struct.pack(">H", n)`: unsigned 16-bit big-endian. -/
def packH (n : Nat) : Option (List Nat) :=
  if n < 65536 then some [n / 256, n % 256] else none

/-- Model of `struct.pack(">I", n)`: unsigned 32-bit big-endian. -/
def packI (n : Nat) : Option (List Nat) :=
  if n < 4294967296 then
    some [n / 16777216, n / 65536 % 256, n / 256 % 256, n % 256]
  else none

/-- Big-endian 4-byte rendering of a value below `2^32`. -/
def be4 (n : Nat) : List Nat :=
  [n / 16777216 % 256, n / 65536 % 256, n / 256 % 256, n % 256]

/-- Model of big-endian `struct.unpack` on a byte slice: fold the bytes
most-significant first. -/
def fromBE (l : List Nat) : Nat :=
  l.foldl (fun a b => 256 * a + b) 0

/-- Reinterpret an unsigned 32-bit value as the signed value
`struct.unpack(">i", ...)` would produce. -/
def toSigned32 (n : Nat) : Int :=
  if n < 2147483648 then (n : Int) else (n : Int) - 4294967296

/-- Model of `struct.pack(">i", v)`: signed 32-bit big-endian; fails outside
the signed 32-bit range. -/
def packi (v : Int) : Option (List Nat) :=
  if -2147483648 ≤ v ∧ v < 2147483648 then
    some (be4 ((v % 4294967296).toNat))
  else none

/-! CRC-32 as computed by `binascii.crc32`: the standard reflected CRC-32
(polynomial 0xEDB88320, initial value 0xFFFFFFFF, final xor 0xFFFFFFFF),
bytes processed least-significant-bit first.  Python 2's `binascii.crc32`
returns the result as a signed 32-bit integer. -/

def crcPoly : Nat := 3988292384

/-- One bit-step of the reflected CRC-32 computation. -/
def crcStep (c : Nat) : Nat :=
  if c % 2 = 1 then (c / 2) ^^^ crcPoly else c / 2

/-- Iterate `crcStep`. -/
def crcStepN : Nat → Nat → Nat
  | 0, c => c
  | k + 1, c => crcStepN k (crcStep c)

/-- Absorb one input byte into the CRC state. -/
def crcByte (c b : Nat) : Nat := crcStepN 8 (c ^^^ b)

/-- Unsigned CRC-32 of a byte sequence. -/
def crc32 (l : List Nat) : Nat :=
  (l.foldl crcByte 4294967295) ^^^ 4294967295

/-- `binascii.crc32` as Python 2 reports it: signed 32-bit. -/
def crc32signed (l : List Nat) : Int := toSigned32 (crc32 l)

/-- Model of Python's `str.split('\x00')`: split a byte sequence on NUL
bytes, keeping empty fields; the result is always nonempty. -/
def splitOnNul : List Nat → List (List Nat)
  | [] => [[]]
  | b :: rest =>
    match splitOnNul rest with
    | [] => [[]]
    | f :: fs => if b = 0 then [] :: f :: fs else (b :: f) :: fs

/-- All elements are genuine byte values (Python 2 `str` elements). -/
def isBytes (l : List Nat) : Prop := ∀ b ∈ l, b < 256

instance (l : List Nat) : Decidable (isBytes l) := by
  unfold isBytes; infer_instance

/-- The payload serializer/deserializer pair the codec is parameterized by:
`pser` models `str(payload)` and `pdeser` models the (partial) `eval` of the
body text back into a payload value. -/
structure PayloadCodec (P : Type) where
  pser : P → List Nat
  pdeser : List Nat → Option P

/-- Decode-side error taxonomy of `Message._to_tuple`, one constructor per
raise site: `formatError` for `Exception("Invalid message format")`,
`integrityError` for `Exception("CRC Mismatch - message may be corrupt.")`,
`indexOutOfRange` for the uncaught Python `IndexError` raised by `vhead[1]`
when the variable header splits into fewer than two fields, and
`payloadFormatError` for `Exception('Msg payload not of form ...')`. -/
inductive DecodeErr
  | formatError
  | integrityError
  | indexOutOfRange
  | payloadFormatError
deriving DecidableEq, Repr

/-! Field extraction functions of `Message._to_tuple`, one per slice the
source takes from `raw_msg`. -/

/-- `struct.unpack('>H', raw_msg[1:3])[0]`. -/
def msgTypeOf (raw : List Nat) : Nat := fromBE ((raw.drop 1).take 2)

/-- `struct.unpack('>B', raw_msg[8:9])[0]`. -/
def vheadSizeOf (raw : List Nat) : Nat := fromBE ((raw.drop 8).take 1)

/-- `raw_msg[13:vhead_end]` with `vhead_end = 13 + vhead_size`. -/
def vheadOf (raw : List Nat) : List Nat :=
  (raw.take (13 + vheadSizeOf raw)).drop 13

/-- `raw_msg[vhead_end:len(raw_msg) - 4]`. -/
def payloadOf (raw : List Nat) : List Nat :=
  (raw.take (raw.length - 4)).drop (13 + vheadSizeOf raw)

/-- `struct.unpack(">i", raw_msg[-4::])[0]`. -/
def msgCrcOf (raw : List Nat) : Int :=
  toSigned32 (fromBE (raw.drop (raw.length - 4)))

/-- `binascii.crc32(raw_msg[:-4])`. -/
def rawCrcOf (raw : List Nat) : Int :=
  crc32signed (raw.take (raw.length - 4))

namespace Message

/-- Model of `Message._to_raw`: build the raw EMP byte string from
`(msg_type, sender_addr, dest_addr, payload)`.  Returns `none` when any of
the `struct.pack` calls would raise (the source catches every failure and
re-raises a generic `Exception("Msg format is invalid")`). -/
def to_raw {P : Type} (C : PayloadCodec P) (msg_type : Nat)
    (sender_addr dest_addr : List Nat) (payload : P) : Option (List Nat) :=
  let payload_str := C.pser payload
  let body_size := 4 + payload_str.length
  let var_headsize := sender_addr.length + dest_addr.length + 2
  (packB 4).bind fun v =>
  (packH msg_type).bind fun ty =>
  (packB 1).bind fun mv =>
  (packB 0).bind fun fl =>
  (packI body_size).bind fun bs =>
  (packB var_headsize).bind fun vh =>
  (packH 120).bind fun ttl =>
  (packH 0).bind fun qos =>
  let raw1 := v ++ ty ++ mv ++ fl ++ bs.drop 1 ++ vh ++ ttl ++ qos ++
    sender_addr ++ [0] ++ dest_addr ++ [0] ++ payload_str
  (packi (crc32signed raw1)).map fun crc => raw1 ++ crc

/-- Model of `Message._to_tuple`: parse a raw EMP byte string back into
`(msg_type, sender_addr, dest_addr, payload)`, with one error constructor
per raise site of the source. -/
def to_tuple {P : Type} (C : PayloadCodec P) (raw : List Nat) :
    Except DecodeErr (Nat × List Nat × List Nat × P) :=
  if raw.length < 20 then .error .formatError
  else if msgCrcOf raw ≠ rawCrcOf raw then .error .integrityError
  else
    match splitOnNul (vheadOf raw) with
    | sender :: dest :: _ =>
      match C.pdeser (payloadOf raw) with
      | some payload => .ok (msgTypeOf raw, sender, dest, payload)
      | none => .error .payloadFormatError
    | _ => .error .indexOutOfRange

end Message

/-! The 13-byte fixed header and full wire prefix that `_to_raw` emits, as
explicit byte lists (used to state the wire-layout claims). -/

/-- The fixed 13-byte header block for message type `t`, payload byte length
`plen` and variable-header size `vhs`. -/
def encHeader (t plen vhs : Nat) : List Nat :=
  [4, t / 256, t % 256, 1, 0,
   (4 + plen) / 65536 % 256, (4 + plen) / 256 % 256, (4 + plen) % 256,
   vhs, 0, 120, 0, 0]

/-- All bytes of an encoded message except the trailing CRC. -/
def encPrefix {P : Type} (C : PayloadCodec P) (t : Nat)
    (s d : List Nat) (p : P) : List Nat :=
  encHeader t (C.pser p).length (s.length + d.length + 2) ++
    s ++ [0] ++ d ++ [0] ++ C.pser p

/-- Signed big-endian 32-bit rendering of an in-range signed value (the
byte output of `struct.pack(">i", v)`). -/
def packSigned (v : Int) : List Nat := be4 ((v % 4294967296).toNat)

/-- Flip bit `k` of the byte at offset `j` (identity past the end). -/
def flipByteAt (raw : List Nat) (j k : Nat) : List Nat :=
  raw.take j ++
    (match raw.drop j with
     | [] => []
     | b :: rest => (b ^^^ 2 ^ k) :: rest)

/-- Overwrite bytes 5-7 of an encoded message with an arbitrary 3-byte
value and recompute the trailing 4 checksum bytes as the CRC-32 of the
modified preceding bytes. -/
def withBodySize (raw : List Nat) (b5 b6 b7 : Nat) : List Nat :=
  let pre := raw.take 5 ++ [b5, b6, b7] ++ (raw.take (raw.length - 4)).drop 8
  pre ++ packSigned (crc32signed pre)

/-! The MsgQueue container. -/

/-- Queue error taxonomy: `empty`/`full` are `Queue.Empty`/`Queue.Full`,
`indexOutOfRange` is Python's `IndexError`, `valueError` is the
`ValueError('Invalid maxsize.')` of the constructor. -/
inductive QueueErr
  | empty
  | full
  | indexOutOfRange
  | valueError
deriving DecidableEq, Repr

/-- State of a `MsgQueue`: the `_items` list and the `maxsize` attribute
(`none` models Python `None`). -/
structure MsgQueue (α : Type) where
  items : List α
  maxsize : Option Int
deriving DecidableEq, Repr

/-- Python indexing `l[n]` with negative-index wraparound: `none` exactly
when the subscript raises `IndexError`. -/
def pyIndex {α : Type} (l : List α) (n : Int) : Option α :=
  let m : Int := if n < 0 then n + l.length else n
  if 0 ≤ m then l.get? m.toNat else none

/-- The effective start/stop position of a Python slice `l[a:b]` bound:
negative values count from the end (clamped at 0), nonnegative values clamp
at the length. -/
def sliceIdx (len : Nat) (i : Int) : Nat :=
  if i < 0 then len - (-i).toNat else min i.toNat len

/-- Python slice `l[a:b]`. -/
def pySlice {α : Type} (l : List α) (a b : Int) : List α :=
  (l.take (sliceIdx l.length b)).drop (sliceIdx l.length a)

/-- Python slice `l[a:]`. -/
def pySliceFrom {α : Type} (l : List α) (a : Int) : List α :=
  l.drop (sliceIdx l.length a)

namespace MsgQueue

/-- `MsgQueue.item_count`. -/
def item_count {α : Type} (q : MsgQueue α) : Nat := q.items.length

/-- `MsgQueue.is_empty`. -/
def is_empty {α : Type} (q : MsgQueue α) : Bool := item_count q == 0

/-- `MsgQueue.is_full`: `self.maxsize and self.item_count() >= self.maxsize`
with Python truthiness (`None` and `0` are falsy, so `maxsize = 0` disables
the capacity check). -/
def is_full {α : Type} (q : MsgQueue α) : Bool :=
  match q.maxsize with
  | none => false
  | some m => if m = 0 then false else decide (m ≤ (item_count q : Int))

/-- `MsgQueue.__init__`: reject a truthy negative maxsize with
`ValueError`, else start with an empty `_items` list. -/
def mk' {α : Type} (maxsize : Option Int) : Except QueueErr (MsgQueue α) :=
  match maxsize with
  | none => .ok ⟨[], none⟩
  | some m => if m ≠ 0 ∧ m < 0 then .error .valueError else .ok ⟨[], some m⟩

/-- `MsgQueue.push`. -/
def push {α : Type} (q : MsgQueue α) (x : α) : Except QueueErr (MsgQueue α) :=
  if is_full q then .error .full
  else .ok ⟨q.items ++ [x], q.maxsize⟩

/-- `MsgQueue.pop`: `is_empty` guard, then `_items[0]` and `_items[1:]`. -/
def pop {α : Type} (q : MsgQueue α) : Except QueueErr (α × MsgQueue α) :=
  match q.items with
  | [] => .error .empty
  | d :: rest => .ok (d, ⟨rest, q.maxsize⟩)

/-- `MsgQueue.peek`: `is_empty` guard first, then `_items[n]` (returned
alongside the unchanged queue state; the method never mutates `_items`). -/
def peek {α : Type} (q : MsgQueue α) (n : Int) :
    Except QueueErr (α × MsgQueue α) :=
  if is_empty q then .error .empty
  else
    match pyIndex q.items n with
    | some v => .ok (v, q)
    | none => .error .indexOutOfRange

/-- `MsgQueue.remove`: probe `_items[n]` (raising `IndexError` on failure,
with no emptiness check), then set `_items = _items[0:n] + _items[n+1:]`. -/
def remove {α : Type} (q : MsgQueue α) (n : Int) :
    Except QueueErr (MsgQueue α) :=
  match pyIndex q.items n with
  | none => .error .indexOutOfRange
  | some _ => .ok ⟨pySlice q.items 0 n ++ pySliceFrom q.items (n + 1), q.maxsize⟩

/-- Push a whole list of items in order, stopping at the first failure. -/
def pushAll {α : Type} (q : MsgQueue α) : List α → Except QueueErr (MsgQueue α)
  | [] => .ok q
  | x :: xs =>
    match push q x with
    | .ok q' => pushAll q' xs
    | .error e => .error e

/-- Pop `n` items in order, stopping at the first failure. -/
def popN {α : Type} (q : MsgQueue α) : Nat → Except QueueErr (List α × MsgQueue α)
  | 0 => .ok ([], q)
  | n + 1 =>
    match pop q with
    | .error e => .error e
    | .ok (d, q') =>
      match popN q' n with
      | .error e => .error e
      | .ok (l, q'') => .ok (d :: l, q'')

end MsgQueue

/-- A maxsize value suffices for `n` pushes when it is `None`, `0` (both
falsy, disabling the capacity check) or at least `n`. -/
def sufficientFor (ms : Option Int) (n : Nat) : Prop :=
  match ms with
  | none => True
  | some m => m = 0 ∨ (n : Int) ≤ m

/-- A concrete payload codec used to instantiate the parameterized codec in
witnesses: a payload is a byte list, serialized behind a leading tag byte,
so that deserialization of a serialized payload recovers it and the empty
body deserializes to nothing (as `eval('')` raises). -/
def exCodec : PayloadCodec (List Nat) :=
  ⟨fun p => 123 :: p,
   fun l => match l with
     | [] => none
     | _ :: t => some t⟩

/-! Queue lemmas. -/

theorem is_full_false {α : Type} (pre : List α) (ms : Option Int)
    (h : ∀ m : Int, ms = some m → m = 0 ∨ (pre.length : Int) < m) :
    MsgQueue.is_full (⟨pre, ms⟩ : MsgQueue α) = false := by
  cases ms with
  | none => rfl
  | some m =>
    rcases h m rfl with h0 | hlt
    · simp [MsgQueue.is_full, h0]
    · simp only [MsgQueue.is_full, MsgQueue.item_count]
      rw [if_neg (by omega), decide_eq_false (by omega)]

theorem pushAll_ok {α : Type} (ms : Option Int) :
    ∀ (ps pre : List α), sufficientFor ms (pre.length + ps.length) →
      MsgQueue.pushAll (⟨pre, ms⟩ : MsgQueue α) ps = .ok ⟨pre ++ ps, ms⟩ := by
  intro ps
  induction ps with
  | nil => intro pre _; simp [MsgQueue.pushAll]
  | cons x xs ih =>
    intro pre hcap
    have hcap1 : ∀ m : Int, ms = some m →
        m = 0 ∨ (pre.length : Int) + (xs.length : Int) + 1 ≤ m := by
      intro m hm
      rw [hm] at hcap
      unfold sufficientFor at hcap
      rcases hcap with h0 | hle
      · exact Or.inl h0
      · right
        simp only [List.length_cons] at hle
        push_cast at hle ⊢
        omega
    have hfull : MsgQueue.is_full (⟨pre, ms⟩ : MsgQueue α) = false := by
      refine is_full_false pre ms ?_
      intro m hm
      rcases hcap1 m hm with h0 | hle
      · exact Or.inl h0
      · right; omega
    have hstep : MsgQueue.push (⟨pre, ms⟩ : MsgQueue α) x =
        .ok ⟨pre ++ [x], ms⟩ := by
      simp [MsgQueue.push, hfull]
    have hcap' : sufficientFor ms ((pre ++ [x]).length + xs.length) := by
      cases ms with
      | none => trivial
      | some m =>
        show m = 0 ∨ (((pre ++ [x]).length + xs.length : Nat) : Int) ≤ m
        rcases hcap1 m rfl with h0 | hle
        · exact Or.inl h0
        · refine Or.inr ?_
          simp only [List.length_append, List.length_cons, List.length_nil]
          push_cast
          omega
    have h1 : MsgQueue.pushAll (⟨pre, ms⟩ : MsgQueue α) (x :: xs) =
        MsgQueue.pushAll (⟨pre ++ [x], ms⟩ : MsgQueue α) xs := by
      simp only [MsgQueue.pushAll]
      rw [hstep]
    rw [h1, ih (pre ++ [x]) hcap']
    simp

theorem popN_all {α : Type} (ms : Option Int) :
    ∀ (l : List α), MsgQueue.popN (⟨l, ms⟩ : MsgQueue α) l.length =
      .ok (l, (⟨[], ms⟩ : MsgQueue α)) := by
  intro l
  induction l with
  | nil => rfl
  | cons x xs ih =>
    show MsgQueue.popN (⟨x :: xs, ms⟩ : MsgQueue α) (xs.length + 1) = _
    simp only [MsgQueue.popN, MsgQueue.pop]
    rw [ih]

/-- Python indexing with a nonnegative subscript is plain list lookup. -/
theorem pyIndex_natCast {α : Type} (l : List α) (n : Nat) :
    pyIndex l (n : Int) = l.get? n := by
  unfold pyIndex
  rw [if_neg (show ¬((n : Int) < 0) by omega),
    if_pos (show (0 : Int) ≤ (n : Int) by omega)]
  simp

/-- Python indexing at `-1` is lookup of the last element. -/
theorem pyIndex_neg_one {α : Type} (l : List α) (h : 1 ≤ l.length) :
    pyIndex l (-1) = l.get? (l.length - 1) := by
  unfold pyIndex
  rw [if_pos (show (-1 : Int) < 0 by norm_num),
    if_pos (show (0 : Int) ≤ -1 + (l.length : Int) by omega)]
  congr 1
  omega

theorem remove_eq_of_some {α : Type} (q : MsgQueue α) (n : Int) (v : α)
    (h : pyIndex q.items n = some v) :
    MsgQueue.remove q n =
      .ok ⟨pySlice q.items 0 n ++ pySliceFrom q.items (n + 1), q.maxsize⟩ := by
  unfold MsgQueue.remove
  rw [h]

/-- C4: any input shorter than 20 bytes is rejected with the
`Invalid message format` error (`formatError`) before any field
extraction. -/
theorem c4_min_length {P : Type} (C : PayloadCodec P) (raw : List Nat)
    (h : raw.length < 20) : Message.to_tuple C raw = .error .formatError := by
  unfold Message.to_tuple
  rw [if_pos h]

/-- C4 witness: the empty input is rejected with `formatError`. -/
theorem c4_min_length_witness :
    Message.to_tuple exCodec [] = .error .formatError :=
  c4_min_length exCodec [] (by decide)

/-- C7: pushing `p1..pn` in order onto a fresh queue with sufficient
capacity and then popping `n` times returns `p1..pn` in order and leaves
the queue empty. -/
theorem c7_queue_fifo {α : Type} (ms : Option Int) (ps : List α)
    (hcap : sufficientFor ms ps.length) :
    ∃ q, MsgQueue.pushAll (⟨[], ms⟩ : MsgQueue α) ps = .ok q ∧
      MsgQueue.popN q ps.length = .ok (ps, (⟨[], ms⟩ : MsgQueue α)) := by
  refine ⟨⟨ps, ms⟩, ?_, ?_⟩
  · have := pushAll_ok ms ps []
    simp only [List.length_nil, List.nil_append, Nat.zero_add] at this
    exact this hcap
  · exact popN_all ms ps

/-- C7 witness at a concrete three-element push/pop sequence on an
unbounded queue. -/
theorem c7_queue_fifo_witness :
    ∃ q, MsgQueue.pushAll (⟨[], none⟩ : MsgQueue Nat) [1, 2, 3] = .ok q ∧
      MsgQueue.popN q 3 = .ok ([1, 2, 3], (⟨[], none⟩ : MsgQueue Nat)) :=
  c7_queue_fifo none [1, 2, 3] trivial

/-- C8 counterexample: with `maxsize = 0` (the claim's `k = 0` case) the
very first push does not signal `QueueFull` — Python truthiness makes a
zero maxsize disable the capacity check entirely, so the push succeeds. -/
theorem c8_queue_capacity_counterexample :
    MsgQueue.mk' (some 0) = .ok (⟨[], some 0⟩ : MsgQueue Nat) ∧
    MsgQueue.push (⟨[], some 0⟩ : MsgQueue Nat) 7 = .ok ⟨[7], some 0⟩ ∧
    MsgQueue.push (⟨[], some 0⟩ : MsgQueue Nat) 7 ≠ .error .full :=
  ⟨rfl, rfl, fun h => nomatch h⟩

/-- C8 amended: for every positive `k`, constructing with `maxsize = k`
succeeds, pushing `k` items succeeds, and the `(k+1)`-th push signals
`QueueFull` (returning an error and producing no new queue state); for
`k = 0` the capacity check is disabled because `0` is falsy in the
`is_full` test, so pushes never fail. -/
theorem c8_queue_capacity {α : Type} (k : Nat) (hk : 1 ≤ k) (ps : List α)
    (hlen : ps.length = k) (x : α) :
    MsgQueue.mk' (some (k : Int)) = .ok (⟨[], some (k : Int)⟩ : MsgQueue α) ∧
    MsgQueue.pushAll (⟨[], some (k : Int)⟩ : MsgQueue α) ps =
      .ok ⟨ps, some (k : Int)⟩ ∧
    MsgQueue.push (⟨ps, some (k : Int)⟩ : MsgQueue α) x = .error .full := by
  refine ⟨?_, ?_, ?_⟩
  · simp only [MsgQueue.mk']
    rw [if_neg (show ¬((k : Int) ≠ 0 ∧ (k : Int) < 0) by omega)]
  · have hsuf : sufficientFor (some (k : Int)) ps.length := by
      show (k : Int) = 0 ∨ (ps.length : Int) ≤ (k : Int)
      right
      omega
    have := pushAll_ok (some (k : Int)) ps []
    simp only [List.length_nil, List.nil_append, Nat.zero_add] at this
    exact this hsuf
  · have hfull : MsgQueue.is_full (⟨ps, some (k : Int)⟩ : MsgQueue α) = true := by
      simp only [MsgQueue.is_full, MsgQueue.item_count]
      rw [if_neg (show ¬((k : Int) = 0) by omega)]
      exact decide_eq_true (by omega)
    simp [MsgQueue.push, hfull]

/-- C8 witness: the amended statement at `k = 2`. -/
theorem c8_queue_capacity_witness :
    MsgQueue.mk' (some (2 : Int)) = .ok (⟨[], some 2⟩ : MsgQueue Nat) ∧
    MsgQueue.pushAll (⟨[], some 2⟩ : MsgQueue Nat) [10, 11] =
      .ok ⟨[10, 11], some 2⟩ ∧
    MsgQueue.push (⟨[10, 11], some 2⟩ : MsgQueue Nat) 12 = .error .full :=
  c8_queue_capacity 2 (by decide) [10, 11] (by decide) 12

/-- C9 counterexample: `remove` on an empty queue signals the
`IndexError` (`indexOutOfRange`), not `QueueEmpty` — `remove` performs no
emptiness check before probing `_items[n]`. -/
theorem c9_queue_bounds_counterexample :
    MsgQueue.remove (⟨[], none⟩ : MsgQueue Nat) 0 = .error .indexOutOfRange ∧
    MsgQueue.remove (⟨[], none⟩ : MsgQueue Nat) 0 ≠ .error .empty :=
  ⟨rfl, fun h => nomatch h⟩

/-- C9 amended: for a nonnegative index `n`, `peek(n)` and `remove(n)` with
`n ≥ count` on a nonempty queue signal `IndexOutOfRange`; on an empty
queue `peek` signals `QueueEmpty` but `remove` signals `IndexOutOfRange`
(it probes `_items[n]` without an emptiness check); `peek` never changes
the queue. -/
theorem c9_queue_bounds {α : Type} (q : MsgQueue α) (n : Nat) :
    (q.items = [] → MsgQueue.peek q (n : Int) = .error .empty ∧
      MsgQueue.remove q (n : Int) = .error .indexOutOfRange) ∧
    (q.items ≠ [] → q.items.length ≤ n →
      MsgQueue.peek q (n : Int) = .error .indexOutOfRange ∧
      MsgQueue.remove q (n : Int) = .error .indexOutOfRange) ∧
    (∀ v q', MsgQueue.peek q (n : Int) = .ok (v, q') → q' = q) := by
  have hidx : pyIndex q.items (n : Int) = q.items.get? n := pyIndex_natCast _ n
  refine ⟨?_, ?_, ?_⟩
  · intro hnil
    constructor
    · unfold MsgQueue.peek
      rw [if_pos]
      unfold MsgQueue.is_empty MsgQueue.item_count
      rw [hnil]; rfl
    · unfold MsgQueue.remove
      rw [hidx, hnil]
      cases n <;> rfl
  · intro hne hlen
    have hnone : q.items.get? n = none := List.get?_eq_none.mpr hlen
    constructor
    · unfold MsgQueue.peek
      rw [if_neg, hidx, hnone]
      unfold MsgQueue.is_empty MsgQueue.item_count
      simp only [beq_iff_eq, List.length_eq_zero]
      simp [hne]
    · unfold MsgQueue.remove
      rw [hidx, hnone]
  · intro v q' h
    unfold MsgQueue.peek at h
    by_cases he : MsgQueue.is_empty q
    · rw [if_pos he] at h; exact absurd h (fun h => nomatch h)
    · rw [if_neg he] at h
      cases hg : pyIndex q.items (n : Int) with
      | none => rw [hg] at h; exact absurd h (fun h => nomatch h)
      | some w => rw [hg] at h; injection h with h1; injection h1 with _ h2; exact h2.symm

/-- C9 witness: the amended statement at concrete queues — empty-queue
behavior of `peek`/`remove` and out-of-range behavior on `[5]` with
index 2. -/
theorem c9_queue_bounds_witness :
    (MsgQueue.peek (⟨[], none⟩ : MsgQueue Nat) (0 : Int) = .error .empty ∧
      MsgQueue.remove (⟨[], none⟩ : MsgQueue Nat) (0 : Int) =
        .error .indexOutOfRange) ∧
    (MsgQueue.peek (⟨[5], none⟩ : MsgQueue Nat) (2 : Int) =
        .error .indexOutOfRange ∧
      MsgQueue.remove (⟨[5], none⟩ : MsgQueue Nat) (2 : Int) =
        .error .indexOutOfRange) :=
  ⟨(c9_queue_bounds (⟨[], none⟩ : MsgQueue Nat) 0).1 rfl,
   (c9_queue_bounds (⟨[5], none⟩ : MsgQueue Nat) 2).2.1
     (by decide) (by decide)⟩

/-- C10: `remove(-1)` on a queue of `c ≥ 2` items signals no error and sets
the contents to `x1..x(c-1)` followed by `x1..xc` (the negative index
passes the `_items[n]` probe, but the slice arithmetic
`_items[0:n] + _items[n+1:]` with `n = -1` appends the whole list), for a
final count of `2c - 1`; no item is removed. -/
theorem c10_remove_negative {α : Type} (q : MsgQueue α) (c : Nat) (h2 : 2 ≤ c)
    (hlen : q.items.length = c) :
    MsgQueue.remove q (-1) =
      .ok ⟨q.items.take (c - 1) ++ q.items, q.maxsize⟩ ∧
    (q.items.take (c - 1) ++ q.items).length = 2 * c - 1 := by
  have hlen1 : 1 ≤ q.items.length := by omega
  have hs1 : sliceIdx q.items.length (-1) = c - 1 := by
    unfold sliceIdx
    rw [if_pos (show (-1 : Int) < 0 by norm_num), hlen]
    norm_num
  have hs0 : sliceIdx q.items.length 0 = 0 := by
    unfold sliceIdx
    rw [if_neg (show ¬((0 : Int) < 0) by norm_num)]
    simp
  constructor
  · have hget : q.items.get? (q.items.length - 1) =
        some (q.items.get ⟨q.items.length - 1, by omega⟩) :=
      List.get?_eq_get (by omega)
    have hidx : pyIndex q.items (-1) =
        some (q.items.get ⟨q.items.length - 1, by omega⟩) := by
      rw [pyIndex_neg_one q.items hlen1, hget]
    rw [remove_eq_of_some q (-1) _ hidx]
    have h1 : pySlice q.items 0 (-1) = q.items.take (c - 1) := by
      unfold pySlice
      rw [hs1, hs0, List.drop_zero]
    have h2 : pySliceFrom q.items ((-1) + 1) = q.items := by
      unfold pySliceFrom
      rw [show ((-1 : Int) + 1) = 0 by norm_num, hs0, List.drop_zero]
    rw [h1, h2]
  · simp only [List.length_append, List.length_take, hlen]
    omega

/-- C10 witness: removing index `-1` from the queue `[1, 2, 3]` produces
`[1, 2, 1, 2, 3]`. -/
theorem c10_remove_negative_witness :
    MsgQueue.remove (⟨[1, 2, 3], none⟩ : MsgQueue Nat) (-1) =
      .ok ⟨[1, 2, 3].take 2 ++ [1, 2, 3], none⟩ ∧
    (([1, 2, 3] : List Nat).take 2 ++ [1, 2, 3]).length = 2 * 3 - 1 :=
  c10_remove_negative (⟨[1, 2, 3], none⟩ : MsgQueue Nat) 3 (by decide) rfl

/-! Byte arithmetic lemmas. -/

theorem pow32_eq : (2 : Nat) ^ 32 = 4294967296 := by norm_num

theorem xor_lt32 (a b : Nat) (ha : a < 4294967296) (hb : b < 4294967296) :
    a ^^^ b < 4294967296 := by
  rw [← pow32_eq] at ha hb ⊢
  exact Nat.xor_lt_two_pow ha hb

theorem fromBE_single (a : Nat) : fromBE [a] = a := by
  unfold fromBE
  simp

theorem fromBE_pair (a b : Nat) : fromBE [a, b] = 256 * a + b := by
  unfold fromBE
  simp [List.foldl]

theorem fromBE_be4 (n : Nat) (h : n < 4294967296) : fromBE (be4 n) = n := by
  unfold fromBE be4
  simp only [List.foldl]
  omega

theorem toSigned32_range (n : Nat) (h : n < 4294967296) :
    -2147483648 ≤ toSigned32 n ∧ toSigned32 n < 2147483648 := by
  unfold toSigned32
  split <;> omega

theorem toSigned32_inj (a b : Nat) (ha : a < 4294967296) (hb : b < 4294967296)
    (h : toSigned32 a = toSigned32 b) : a = b := by
  unfold toSigned32 at h
  split at h <;> split at h <;> omega

theorem toSigned32_toNat_mod (n : Nat) (h : n < 4294967296) :
    ((toSigned32 n) % 4294967296).toNat = n := by
  unfold toSigned32
  split <;> omega

theorem packSigned_toSigned32 (n : Nat) (h : n < 4294967296) :
    packSigned (toSigned32 n) = be4 n := by
  unfold packSigned
  rw [toSigned32_toNat_mod n h]

theorem packi_in_range (v : Int) (h1 : -2147483648 ≤ v) (h2 : v < 2147483648) :
    packi v = some (packSigned v) := by
  unfold packi packSigned
  rw [if_pos ⟨h1, h2⟩]

theorem packSigned_crc32signed (l : List Nat) (h : crc32 l < 4294967296) :
    packSigned (crc32signed l) = be4 (crc32 l) := by
  unfold crc32signed
  exact packSigned_toSigned32 _ h

/-! CRC-32 state bounds. -/

theorem crcPoly_lt : crcPoly < 4294967296 := by norm_num [crcPoly]

theorem crcStep_lt (c : Nat) (h : c < 4294967296) : crcStep c < 4294967296 := by
  unfold crcStep
  split
  · exact xor_lt32 _ _ (by omega) crcPoly_lt
  · omega

theorem crcStepN_lt (k : Nat) : ∀ c, c < 4294967296 →
    crcStepN k c < 4294967296 := by
  induction k with
  | zero => intro c h; exact h
  | succ k ih => intro c h; exact ih _ (crcStep_lt _ h)

theorem crcByte_lt (c b : Nat) (hc : c < 4294967296) (hb : b < 4294967296) :
    crcByte c b < 4294967296 :=
  crcStepN_lt 8 _ (xor_lt32 _ _ hc hb)

theorem foldl_crcByte_lt (l : List Nat) : ∀ c, c < 4294967296 →
    (∀ b ∈ l, b < 4294967296) → l.foldl crcByte c < 4294967296 := by
  induction l with
  | nil => intro c hc _; simpa using hc
  | cons b bs ih =>
    intro c hc hl
    have hb : b < 4294967296 := hl b (by simp)
    have hbs : ∀ x ∈ bs, x < 4294967296 := fun x hx => hl x (by simp [hx])
    simpa using ih _ (crcByte_lt c b hc hb) hbs

theorem bytes_lt32 (l : List Nat) (h : isBytes l) :
    ∀ b ∈ l, b < 4294967296 := by
  intro b hb
  have := h b hb
  omega

theorem crc32_lt32 (l : List Nat) (h : ∀ a ∈ l, a < 4294967296) :
    crc32 l < 4294967296 := by
  unfold crc32
  exact xor_lt32 _ _ (foldl_crcByte_lt l _ (by norm_num) h) (by norm_num)

theorem crc32_lt (l : List Nat) (h : isBytes l) : crc32 l < 4294967296 :=
  crc32_lt32 l (bytes_lt32 l h)

theorem crc32signed_range (l : List Nat) (h : isBytes l) :
    -2147483648 ≤ crc32signed l ∧ crc32signed l < 2147483648 :=
  toSigned32_range _ (crc32_lt l h)

/-! Splitting the variable header on NUL bytes. -/

theorem splitOnNul_cons (b : Nat) (rest : List Nat) :
    splitOnNul (b :: rest) =
      match splitOnNul rest with
      | [] => [[]]
      | f :: fs => if b = 0 then [] :: f :: fs else (b :: f) :: fs := rfl

theorem splitOnNul_ne_nil (l : List Nat) : splitOnNul l ≠ [] := by
  cases l with
  | nil => simp [splitOnNul]
  | cons b rest =>
    rw [splitOnNul_cons]
    cases h : splitOnNul rest with
    | nil => simp
    | cons f fs => by_cases hb : b = 0 <;> simp [hb]

theorem splitOnNul_append (s : List Nat) (r : List Nat) (hs : 0 ∉ s) :
    splitOnNul (s ++ 0 :: r) = s :: splitOnNul r := by
  induction s with
  | nil =>
    simp only [List.nil_append]
    cases h : splitOnNul r with
    | nil => exact absurd h (splitOnNul_ne_nil r)
    | cons f fs =>
      rw [splitOnNul_cons, h]
      simp
  | cons b bs ih =>
    have hb : ¬(b = 0) := fun h => hs (by simp [h])
    have hbs : 0 ∉ bs := fun h => hs (by simp [h])
    simp only [List.cons_append]
    rw [splitOnNul_cons, ih hbs]
    simp [hb]

/-! Positional slicing facts used to evaluate the decoder's field
extractions on a message in wire form. -/

theorem drop1_take2 (a0 a1 a2 : Nat) (rest : List Nat) :
    ((a0 :: a1 :: a2 :: rest).drop 1).take 2 = [a1, a2] := rfl

theorem drop8_take1 (a0 a1 a2 a3 a4 a5 a6 a7 a8 : Nat) (rest : List Nat) :
    ((a0 :: a1 :: a2 :: a3 :: a4 :: a5 :: a6 :: a7 :: a8 :: rest).drop 8).take 1 =
      [a8] := rfl

theorem take_add13 (n : Nat) (a0 a1 a2 a3 a4 a5 a6 a7 a8 a9 a10 a11 a12 : Nat)
    (rest : List Nat) :
    (a0 :: a1 :: a2 :: a3 :: a4 :: a5 :: a6 :: a7 :: a8 :: a9 :: a10 :: a11 ::
        a12 :: rest).take (n + 13) =
      a0 :: a1 :: a2 :: a3 :: a4 :: a5 :: a6 :: a7 :: a8 :: a9 :: a10 :: a11 ::
        a12 :: rest.take n := rfl

theorem drop13_cons (a0 a1 a2 a3 a4 a5 a6 a7 a8 a9 a10 a11 a12 : Nat)
    (rest : List Nat) :
    (a0 :: a1 :: a2 :: a3 :: a4 :: a5 :: a6 :: a7 :: a8 :: a9 :: a10 :: a11 ::
        a12 :: rest).drop 13 = rest := rfl

theorem drop_add13 (n : Nat) (a0 a1 a2 a3 a4 a5 a6 a7 a8 a9 a10 a11 a12 : Nat)
    (rest : List Nat) :
    (a0 :: a1 :: a2 :: a3 :: a4 :: a5 :: a6 :: a7 :: a8 :: a9 :: a10 :: a11 ::
        a12 :: rest).drop (n + 13) = rest.drop n := rfl

/-- Evaluation of the encoder on a valid input: every `struct.pack` call
succeeds and the output is the fixed header, the variable header, the
serialized payload and the signed big-endian CRC-32 of all preceding
bytes. -/
theorem to_raw_eq {P : Type} (C : PayloadCodec P) (t : Nat) (s d : List Nat)
    (p : P) (ht : t < 65536) (hvh : s.length + d.length + 2 ≤ 255)
    (hbs : 4 + (C.pser p).length < 4294967296)
    (hcrc : crc32 (encPrefix C t s d p) < 4294967296) :
    Message.to_raw C t s d p =
      some (encPrefix C t s d p ++
        packSigned (crc32signed (encPrefix C t s d p))) := by
  have h1 : packB 4 = some [4] := by norm_num [packB]
  have h2 : packH t = some [t / 256, t % 256] := by
    unfold packH
    rw [if_pos ht]
  have h3 : packB 1 = some [1] := by norm_num [packB]
  have h4 : packB 0 = some [0] := by norm_num [packB]
  have h5 : packI (4 + (C.pser p).length) =
      some [(4 + (C.pser p).length) / 16777216,
        (4 + (C.pser p).length) / 65536 % 256,
        (4 + (C.pser p).length) / 256 % 256,
        (4 + (C.pser p).length) % 256] := by
    unfold packI
    rw [if_pos hbs]
  have h6 : packB (s.length + d.length + 2) =
      some [s.length + d.length + 2] := by
    unfold packB
    rw [if_pos (by omega)]
  have h7 : packH 120 = some [0, 120] := by norm_num [packH]
  have h8 : packH 0 = some [0, 0] := by norm_num [packH]
  have h9 : packi (crc32signed (encPrefix C t s d p)) =
      some (packSigned (crc32signed (encPrefix C t s d p))) := by
    obtain ⟨hr1, hr2⟩ := toSigned32_range _ hcrc
    exact packi_in_range _ hr1 hr2
  have hpre : [4] ++ [t / 256, t % 256] ++ [1] ++ [0] ++
      ([(4 + (C.pser p).length) / 16777216,
        (4 + (C.pser p).length) / 65536 % 256,
        (4 + (C.pser p).length) / 256 % 256,
        (4 + (C.pser p).length) % 256].drop 1) ++
      [s.length + d.length + 2] ++ [0, 120] ++ [0, 0] ++ s ++ [0] ++ d ++
      [0] ++ C.pser p = encPrefix C t s d p := by
    simp [encPrefix, encHeader]
  simp only [Message.to_raw, h1, h2, h3, h4, h5, h6, h7, h8, Option.some_bind]
  rw [hpre, h9]
  rfl

/-- Evaluation of the decoder on a well-formed encoded message: the length
and checksum tests pass, the variable header splits back into sender and
destination, and the payload region deserializes. -/
theorem to_tuple_encoded {P : Type} (C : PayloadCodec P) (t : Nat)
    (s d : List Nat) (p : P)
    (hs0 : 0 ∉ s) (hd0 : 0 ∉ d)
    (hpl : 1 ≤ (C.pser p).length)
    (hp : C.pdeser (C.pser p) = some p)
    (hcrc : crc32 (encPrefix C t s d p) < 4294967296) :
    Message.to_tuple C
      (encPrefix C t s d p ++ be4 (crc32 (encPrefix C t s d p))) =
      .ok (t, s, d, p) := by
  have hLpre : (encPrefix C t s d p).length =
      s.length + d.length + (C.pser p).length + 15 := by
    simp [encPrefix, encHeader]
    omega
  have hLraw : (encPrefix C t s d p ++
      be4 (crc32 (encPrefix C t s d p))).length =
      (encPrefix C t s d p).length + 4 := by
    simp [be4]
  have hsub : (encPrefix C t s d p ++
      be4 (crc32 (encPrefix C t s d p))).length - 4 =
      (encPrefix C t s d p).length := by
    omega
  have h20 : ¬((encPrefix C t s d p ++
      be4 (crc32 (encPrefix C t s d p))).length < 20) := by
    omega
  have htake : (encPrefix C t s d p ++
      be4 (crc32 (encPrefix C t s d p))).take
        ((encPrefix C t s d p ++
          be4 (crc32 (encPrefix C t s d p))).length - 4) =
      encPrefix C t s d p := by
    rw [hsub]
    exact List.take_left _ _
  have hdrop : (encPrefix C t s d p ++
      be4 (crc32 (encPrefix C t s d p))).drop
        ((encPrefix C t s d p ++
          be4 (crc32 (encPrefix C t s d p))).length - 4) =
      be4 (crc32 (encPrefix C t s d p)) := by
    rw [hsub]
    exact List.drop_left _ _
  have hcrceq : msgCrcOf (encPrefix C t s d p ++
      be4 (crc32 (encPrefix C t s d p))) =
      rawCrcOf (encPrefix C t s d p ++
        be4 (crc32 (encPrefix C t s d p))) := by
    unfold msgCrcOf rawCrcOf
    rw [hdrop, htake, fromBE_be4 _ hcrc]
    rfl
  have hraw : encPrefix C t s d p ++ be4 (crc32 (encPrefix C t s d p)) =
      4 :: t / 256 :: t % 256 :: 1 :: 0 ::
      (4 + (C.pser p).length) / 65536 % 256 ::
      (4 + (C.pser p).length) / 256 % 256 ::
      (4 + (C.pser p).length) % 256 ::
      (s.length + d.length + 2) :: 0 :: 120 :: 0 :: 0 ::
      (s ++ 0 :: (d ++ 0 ::
        (C.pser p ++ be4 (crc32 (encPrefix C t s d p))))) := by
    simp [encPrefix, encHeader]
  have hvsz : vheadSizeOf (encPrefix C t s d p ++
      be4 (crc32 (encPrefix C t s d p))) = s.length + d.length + 2 := by
    unfold vheadSizeOf
    rw [hraw, drop8_take1, fromBE_single]
  have hmt : msgTypeOf (encPrefix C t s d p ++
      be4 (crc32 (encPrefix C t s d p))) = t := by
    unfold msgTypeOf
    rw [hraw, drop1_take2, fromBE_pair]
    omega
  have hlen2 : (s ++ 0 :: (d ++ [0])).length = s.length + d.length + 2 := by
    simp
    omega
  have hvh : vheadOf (encPrefix C t s d p ++
      be4 (crc32 (encPrefix C t s d p))) = s ++ 0 :: (d ++ [0]) := by
    unfold vheadOf
    rw [hvsz, Nat.add_comm 13 (s.length + d.length + 2), hraw, take_add13,
      drop13_cons]
    have hre : s ++ 0 :: (d ++ 0 ::
        (C.pser p ++ be4 (crc32 (encPrefix C t s d p)))) =
        (s ++ 0 :: (d ++ [0])) ++
          (C.pser p ++ be4 (crc32 (encPrefix C t s d p))) := by
      simp
    rw [hre, ← hlen2]
    exact List.take_left _ _
  have hsplit : splitOnNul (vheadOf (encPrefix C t s d p ++
      be4 (crc32 (encPrefix C t s d p)))) = s :: d :: [[]] := by
    rw [hvh, splitOnNul_append s _ hs0, splitOnNul_append d _ hd0]
    rfl
  have hpre2 : encPrefix C t s d p =
      4 :: t / 256 :: t % 256 :: 1 :: 0 ::
      (4 + (C.pser p).length) / 65536 % 256 ::
      (4 + (C.pser p).length) / 256 % 256 ::
      (4 + (C.pser p).length) % 256 ::
      (s.length + d.length + 2) :: 0 :: 120 :: 0 :: 0 ::
      (s ++ 0 :: (d ++ 0 :: C.pser p)) := by
    simp [encPrefix, encHeader]
  have hpay : payloadOf (encPrefix C t s d p ++
      be4 (crc32 (encPrefix C t s d p))) = C.pser p := by
    unfold payloadOf
    rw [hvsz, htake, hpre2, Nat.add_comm 13 (s.length + d.length + 2),
      drop_add13]
    have hre2 : s ++ 0 :: (d ++ 0 :: C.pser p) =
        (s ++ 0 :: (d ++ [0])) ++ C.pser p := by
      simp
    rw [hre2, ← hlen2]
    exact List.drop_left _ _
  unfold Message.to_tuple
  rw [if_neg h20, if_neg (not_not_intro hcrceq)]
  simp only [hsplit, hpay, hp, hmt]

/-- All bytes of the wire prefix are below 256 when the inputs are. -/
theorem encPrefix_isBytes {P : Type} (C : PayloadCodec P) (t : Nat)
    (s d : List Nat) (p : P) (ht : t < 65536)
    (hvh : s.length + d.length + 2 ≤ 255)
    (hs : isBytes s) (hd : isBytes d) (hpb : isBytes (C.pser p)) :
    isBytes (encPrefix C t s d p) := by
  have hhdr : ∀ b ∈ encHeader t (C.pser p).length (s.length + d.length + 2),
      b < 256 := by
    intro b hb
    simp [encHeader] at hb
    omega
  intro b hb
  unfold encPrefix at hb
  simp only [List.mem_append] at hb
  rcases hb with ((((hb | hb) | hb) | hb) | hb) | hb
  · exact hhdr b hb
  · exact hs b hb
  · simp at hb
    omega
  · exact hd b hb
  · simp at hb
    omega
  · exact hpb b hb

/-- C1: round-trip of the codec — for every tuple whose type fits in 16
bits, whose sender and destination are NUL-free byte strings whose lengths
plus the two terminators fit in the 8-bit variable-header-size field, and
whose payload serializes (to a nonempty body that deserializes back, as
`str`/`eval` behave on the dictionary payloads the protocol carries),
encoding succeeds and decoding the encoding returns the same type, sender,
destination and payload. -/
theorem c1_roundtrip {P : Type} (C : PayloadCodec P) (t : Nat)
    (s d : List Nat) (p : P)
    (ht : t < 65536) (hs : isBytes s) (hd : isBytes d)
    (hpb : isBytes (C.pser p))
    (hs0 : 0 ∉ s) (hd0 : 0 ∉ d)
    (hvh : s.length + d.length + 2 ≤ 255)
    (hbs : 4 + (C.pser p).length < 4294967296)
    (hrt : C.pdeser (C.pser p) = some p)
    (hne : C.pdeser [] = none) :
    ∃ raw, Message.to_raw C t s d p = some raw ∧
      Message.to_tuple C raw = .ok (t, s, d, p) := by
  have hcrc := crc32_lt _ (encPrefix_isBytes C t s d p ht hvh hs hd hpb)
  have hpl : 1 ≤ (C.pser p).length := by
    rcases hx : C.pser p with _ | ⟨b, bs⟩
    · rw [hx, hne] at hrt
      exact absurd hrt (by simp)
    · simp
  refine ⟨_, to_raw_eq C t s d p ht hvh hbs hcrc, ?_⟩
  rw [packSigned_crc32signed _ hcrc]
  exact to_tuple_encoded C t s d p hs0 hd0 hpl hrt hcrc

/-- C1 witness: the tuple `(6000, "a", "b", payload [7])` under the
example payload codec round-trips. -/
theorem c1_roundtrip_witness :
    ∃ raw, Message.to_raw exCodec 6000 [97] [98] [7] = some raw ∧
      Message.to_tuple exCodec raw = .ok (6000, [97], [98], [7]) :=
  c1_roundtrip exCodec 6000 [97] [98] [7] (by decide) (by decide) (by decide)
    (by decide) (by decide) (by decide) (by decide) (by decide) rfl rfl

/-- C2: the encoder emits exactly the specified wire layout — byte 0 is 4,
bytes 1-2 are the message type big-endian, byte 3 is 1, byte 4 is 0,
bytes 5-7 are the low-order 3 bytes of the 32-bit big-endian encoding of
`4 + payload length`, byte 8 is `len(sender) + len(destination) + 2`,
bytes 9-10 are 120 big-endian, bytes 11-12 are 0, then the sender, a NUL,
the destination, a NUL, the serialized payload, and 4 bytes holding the
CRC-32 of all preceding bytes as a signed big-endian 32-bit integer. -/
theorem c2_wire_layout {P : Type} (C : PayloadCodec P) (t : Nat)
    (s d : List Nat) (p : P)
    (ht : t < 65536) (hs : isBytes s) (hd : isBytes d)
    (hpb : isBytes (C.pser p))
    (hvh : s.length + d.length + 2 ≤ 255)
    (hbs : 4 + (C.pser p).length < 4294967296) :
    Message.to_raw C t s d p =
      some (([4, t / 256, t % 256, 1, 0,
        (4 + (C.pser p).length) / 65536 % 256,
        (4 + (C.pser p).length) / 256 % 256,
        (4 + (C.pser p).length) % 256,
        s.length + d.length + 2, 0, 120, 0, 0] ++
        s ++ [0] ++ d ++ [0] ++ C.pser p) ++
        packSigned (crc32signed
          ([4, t / 256, t % 256, 1, 0,
            (4 + (C.pser p).length) / 65536 % 256,
            (4 + (C.pser p).length) / 256 % 256,
            (4 + (C.pser p).length) % 256,
            s.length + d.length + 2, 0, 120, 0, 0] ++
            s ++ [0] ++ d ++ [0] ++ C.pser p))) := by
  have hcrc := crc32_lt _ (encPrefix_isBytes C t s d p ht hvh hs hd hpb)
  exact to_raw_eq C t s d p ht hvh hbs hcrc

set_option maxRecDepth 8000 in
/-- C2 witness: the wire bytes of `(6000, "a", "b", payload [7])`,
including the computed CRC trailer. -/
theorem c2_wire_layout_witness :
    Message.to_raw exCodec 6000 [97] [98] [7] =
      some [4, 23, 112, 1, 0, 0, 0, 6, 4, 0, 120, 0, 0,
        97, 0, 98, 0, 123, 7, 34, 134, 172, 85] :=
  c2_wire_layout exCodec 6000 [97] [98] [7] (by decide) (by decide)
    (by decide) (by decide) (by decide) (by decide)

/-- A failed checksum comparison aborts the decode with the CRC-mismatch
error. -/
theorem to_tuple_crc_mismatch {P : Type} (C : PayloadCodec P)
    (raw : List Nat) (h20 : ¬(raw.length < 20))
    (hne : msgCrcOf raw ≠ rawCrcOf raw) :
    Message.to_tuple C raw = .error .integrityError := by
  unfold Message.to_tuple
  rw [if_neg h20, if_pos hne]

set_option maxRecDepth 8000 in
/-- C6 counterexample: a 20-byte input with a valid checksum whose
variable-header region is the single non-NUL byte 7 makes `vhead.split`
return one field only, and decode then signals the uncaught Python
`IndexError` from `vhead[1]` (`indexOutOfRange`), not the
`Invalid message format` error the claim calls `FormatError`. -/
theorem c6_vhead_split_counterexample :
    Message.to_tuple exCodec
      ([4, 0, 0, 1, 0, 0, 0, 5, 1, 0, 120, 0, 0, 7, 7, 7] ++
        be4 (crc32 [4, 0, 0, 1, 0, 0, 0, 5, 1, 0, 120, 0, 0, 7, 7, 7])) =
      .error .indexOutOfRange ∧
    Message.to_tuple exCodec
      ([4, 0, 0, 1, 0, 0, 0, 5, 1, 0, 120, 0, 0, 7, 7, 7] ++
        be4 (crc32 [4, 0, 0, 1, 0, 0, 0, 5, 1, 0, 120, 0, 0, 7, 7, 7])) ≠
      .error .formatError :=
  ⟨rfl, fun h => nomatch h⟩

/-- C6 amended: for every input of length at least 20 that passes the
checksum comparison, decode splits the region from byte 13 through byte
`13 + var_head_size` on NUL bytes and takes the first two fields as sender
and destination (proceeding to payload deserialization); if that region
contains fewer than two NUL-delimited fields, decode signals the index
error (`IndexError`, the spec taxonomy's `IndexOutOfRange`) rather than
`FormatError`. -/
theorem c6_vhead_split {P : Type} (C : PayloadCodec P) (raw : List Nat)
    (h20 : ¬(raw.length < 20))
    (hcrc : msgCrcOf raw = rawCrcOf raw) :
    (∀ f, splitOnNul (vheadOf raw) = [f] →
      Message.to_tuple C raw = .error .indexOutOfRange) ∧
    (∀ f0 f1 fs, splitOnNul (vheadOf raw) = f0 :: f1 :: fs →
      (∀ pv, C.pdeser (payloadOf raw) = some pv →
        Message.to_tuple C raw = .ok (msgTypeOf raw, f0, f1, pv)) ∧
      (C.pdeser (payloadOf raw) = none →
        Message.to_tuple C raw = .error .payloadFormatError)) := by
  constructor
  · intro f hf
    unfold Message.to_tuple
    rw [if_neg h20, if_neg (not_not_intro hcrc), hf]
  · intro f0 f1 fs hf
    constructor
    · intro pv hpv
      unfold Message.to_tuple
      rw [if_neg h20, if_neg (not_not_intro hcrc), hf, hpv]
    · intro hpv
      unfold Message.to_tuple
      rw [if_neg h20, if_neg (not_not_intro hcrc), hf, hpv]

set_option maxRecDepth 8000 in
/-- C6 witness: both branches of the amended statement at concrete
messages — a one-field variable header signals the index error, and a
two-field variable header decodes into those sender and destination
fields. -/
theorem c6_vhead_split_witness :
    Message.to_tuple exCodec
      ([4, 0, 0, 1, 0, 0, 0, 5, 2, 0, 120, 0, 0, 9, 9, 8] ++
        be4 (crc32 [4, 0, 0, 1, 0, 0, 0, 5, 2, 0, 120, 0, 0, 9, 9, 8])) =
      .error .indexOutOfRange ∧
    Message.to_tuple exCodec
      [4, 23, 112, 1, 0, 0, 0, 6, 4, 0, 120, 0, 0,
        97, 0, 98, 0, 123, 7, 34, 134, 172, 85] =
      .ok (6000, [97], [98], [7]) :=
  ⟨(c6_vhead_split exCodec
      ([4, 0, 0, 1, 0, 0, 0, 5, 2, 0, 120, 0, 0, 9, 9, 8] ++
        be4 (crc32 [4, 0, 0, 1, 0, 0, 0, 5, 2, 0, 120, 0, 0, 9, 9, 8]))
      (by decide) (by decide)).1 [9, 9] (by decide),
   ((c6_vhead_split exCodec
      [4, 23, 112, 1, 0, 0, 0, 6, 4, 0, 120, 0, 0,
        97, 0, 98, 0, 123, 7, 34, 134, 172, 85]
      (by decide) (by decide)).2 [97] [98] [[]] (by decide)).1 [7] (by decide)⟩

/-! CRC-32 single-byte-difference detection: the per-bit step is injective
on 32-bit states, so two inputs of equal length differing in exactly one
byte have different CRC-32 values. -/

theorem xor_right_cancel (a c b : Nat) (h : a ^^^ b = c ^^^ b) : a = c := by
  have h2 := congrArg (fun u => u ^^^ b) h
  simpa [Nat.xor_assoc, Nat.xor_self, Nat.xor_zero] using h2

theorem xor_left_cancel (a b c : Nat) (h : a ^^^ b = a ^^^ c) : b = c := by
  have h2 := congrArg (fun u => a ^^^ u) h
  simpa [← Nat.xor_assoc, Nat.xor_self, Nat.zero_xor] using h2

theorem testBit31_false (x : Nat) (h : x < 2147483648) :
    x.testBit 31 = false := by
  apply Nat.testBit_eq_false_of_lt
  omega

theorem testBit31_poly : crcPoly.testBit 31 = true := by decide

theorem crcStep_inj (c1 c2 : Nat) (h1 : c1 < 4294967296)
    (h2 : c2 < 4294967296) (h : crcStep c1 = crcStep c2) : c1 = c2 := by
  unfold crcStep at h
  by_cases p1 : c1 % 2 = 1 <;> by_cases p2 : c2 % 2 = 1
  · rw [if_pos p1, if_pos p2] at h
    have := xor_right_cancel _ _ _ h
    omega
  · rw [if_pos p1, if_neg p2] at h
    have h31 := congrArg (fun x => x.testBit 31) h
    simp only [Nat.testBit_xor] at h31
    rw [testBit31_false (c1 / 2) (by omega), testBit31_poly,
      testBit31_false (c2 / 2) (by omega)] at h31
    simp at h31
  · rw [if_neg p1, if_pos p2] at h
    have h31 := congrArg (fun x => x.testBit 31) h
    simp only [Nat.testBit_xor] at h31
    rw [testBit31_false (c1 / 2) (by omega), testBit31_poly,
      testBit31_false (c2 / 2) (by omega)] at h31
    simp at h31
  · rw [if_neg p1, if_neg p2] at h
    omega

theorem crcStepN_inj (k : Nat) : ∀ c1 c2, c1 < 4294967296 →
    c2 < 4294967296 → crcStepN k c1 = crcStepN k c2 → c1 = c2 := by
  induction k with
  | zero => intro c1 c2 _ _ h; exact h
  | succ k ih =>
    intro c1 c2 h1 h2 h
    exact crcStep_inj c1 c2 h1 h2
      (ih _ _ (crcStep_lt _ h1) (crcStep_lt _ h2) h)

theorem crcByte_state_inj (b c1 c2 : Nat) (h1 : c1 < 4294967296)
    (h2 : c2 < 4294967296) (hb : b < 4294967296)
    (h : crcByte c1 b = crcByte c2 b) : c1 = c2 :=
  xor_right_cancel _ _ _
    (crcStepN_inj 8 _ _ (xor_lt32 _ _ h1 hb) (xor_lt32 _ _ h2 hb) h)

theorem crcByte_byte_inj (c b1 b2 : Nat) (hc : c < 4294967296)
    (hb1 : b1 < 4294967296) (hb2 : b2 < 4294967296)
    (h : crcByte c b1 = crcByte c b2) : b1 = b2 :=
  xor_left_cancel _ _ _
    (crcStepN_inj 8 _ _ (xor_lt32 _ _ hc hb1) (xor_lt32 _ _ hc hb2) h)

theorem foldl_crcByte_ne (l : List Nat) (hl : ∀ b ∈ l, b < 4294967296) :
    ∀ c1 c2, c1 < 4294967296 → c2 < 4294967296 → c1 ≠ c2 →
      l.foldl crcByte c1 ≠ l.foldl crcByte c2 := by
  induction l with
  | nil =>
    intro c1 c2 _ _ hne h
    exact hne (by simpa using h)
  | cons b bs ih =>
    intro c1 c2 h1 h2 hne h
    have hb : b < 4294967296 := hl b (by simp)
    have hbs : ∀ a ∈ bs, a < 4294967296 := fun a ha => hl a (by simp [ha])
    simp only [List.foldl_cons] at h
    have hcne : crcByte c1 b ≠ crcByte c2 b := fun he =>
      hne (crcByte_state_inj b c1 c2 h1 h2 hb he)
    exact ih hbs _ _ (crcByte_lt _ _ h1 hb) (crcByte_lt _ _ h2 hb) hcne h

/-- Two byte sequences that differ in exactly one position have different
CRC-32 values. -/
theorem crc32_flip_ne (x z : List Nat) (b b' : Nat)
    (hx : ∀ a ∈ x, a < 4294967296) (hz : ∀ a ∈ z, a < 4294967296)
    (hb : b < 4294967296) (hb' : b' < 4294967296) (hne : b ≠ b') :
    crc32 (x ++ b :: z) ≠ crc32 (x ++ b' :: z) := by
  unfold crc32
  intro h
  have h2 : (x ++ b :: z).foldl crcByte 4294967295 =
      (x ++ b' :: z).foldl crcByte 4294967295 := by
    have h3 := congrArg (fun u => u ^^^ 4294967295) h
    simpa [Nat.xor_assoc, Nat.xor_self, Nat.xor_zero] using h3
  rw [List.foldl_append, List.foldl_append] at h2
  simp only [List.foldl_cons] at h2
  have hq : x.foldl crcByte 4294967295 < 4294967296 :=
    foldl_crcByte_lt x _ (by norm_num) hx
  have hbne : crcByte (x.foldl crcByte 4294967295) b ≠
      crcByte (x.foldl crcByte 4294967295) b' := fun he =>
    hne (crcByte_byte_inj _ b b' hq hb hb' he)
  exact foldl_crcByte_ne z hz _ _ (crcByte_lt _ _ hq hb)
    (crcByte_lt _ _ hq hb') hbne h2

/-- Decode rejects, with the CRC-mismatch error, any encoded message whose
body has one byte replaced by that byte with bit `k` flipped. -/
theorem to_tuple_flip_body {P : Type} (C : PayloadCodec P) (A u v : List Nat)
    (b c k : Nat)
    (hA : ∀ a ∈ A, a < 4294967296) (hu : ∀ a ∈ u, a < 4294967296)
    (hv : ∀ a ∈ v, a < 4294967296)
    (hb : b < 256) (hk : k < 8)
    (hlenA : 15 ≤ A.length)
    (hc : c = crc32 (A ++ (u ++ b :: v)))
    (hclt : c < 4294967296) :
    Message.to_tuple C
      (flipByteAt ((A ++ (u ++ b :: v)) ++ be4 c) (A.length + u.length) k) =
      .error .integrityError := by
  have hxor_lt : b ^^^ 2 ^ k < 256 := by
    have h1 : b < 2 ^ 8 := by omega
    have h2 : 2 ^ k < 2 ^ 8 := by
      have h3 := Nat.pow_le_pow_right (show 1 ≤ 2 by norm_num)
        (show k ≤ 7 by omega)
      omega
    have h4 := Nat.xor_lt_two_pow h1 h2
    omega
  have hR : (A ++ (u ++ b :: v)) ++ be4 c = (A ++ u) ++ (b :: (v ++ be4 c)) := by
    simp [List.append_assoc]
  have htk : ((A ++ u) ++ (b :: (v ++ be4 c))).take (A.length + u.length) =
      A ++ u :=
    List.take_left' (by simp)
  have hdp : ((A ++ u) ++ (b :: (v ++ be4 c))).drop (A.length + u.length) =
      b :: (v ++ be4 c) :=
    List.drop_left' (by simp)
  have hflip : flipByteAt ((A ++ (u ++ b :: v)) ++ be4 c)
      (A.length + u.length) k =
      (A ++ (u ++ (b ^^^ 2 ^ k) :: v)) ++ be4 c := by
    unfold flipByteAt
    rw [hR, htk, hdp]
    simp [List.append_assoc]
  rw [hflip]
  have hflipbytes : ∀ a ∈ A ++ (u ++ (b ^^^ 2 ^ k) :: v), a < 4294967296 := by
    intro a ha
    simp only [List.mem_append, List.mem_cons] at ha
    rcases ha with ha | ha | ha | ha
    · exact hA a ha
    · exact hu a ha
    · omega
    · exact hv a ha
  have hbne : b ^^^ 2 ^ k ≠ b := by
    intro he
    have h0 : b ^^^ 2 ^ k = b ^^^ 0 := by
      rw [Nat.xor_zero]
      exact he
    have h1 := xor_left_cancel _ _ _ h0
    have h2 := Nat.two_pow_pos k
    omega
  have hre1 : A ++ (u ++ (b ^^^ 2 ^ k) :: v) = (A ++ u) ++ (b ^^^ 2 ^ k) :: v := by
    simp [List.append_assoc]
  have hre2 : A ++ (u ++ b :: v) = (A ++ u) ++ b :: v := by
    simp [List.append_assoc]
  have hnecrc := crc32_flip_ne (A ++ u) v (b ^^^ 2 ^ k) b
    (List.forall_mem_append.mpr ⟨hA, hu⟩) hv (by omega) (by omega) hbne
  apply to_tuple_crc_mismatch
  · simp only [List.length_append, List.length_cons, be4, List.length_nil]
    omega
  · unfold msgCrcOf rawCrcOf
    have hlen4 : ((A ++ (u ++ (b ^^^ 2 ^ k) :: v)) ++ be4 c).length - 4 =
        (A ++ (u ++ (b ^^^ 2 ^ k) :: v)).length := by
      simp [be4]
      omega
    rw [hlen4, List.take_left, List.drop_left, fromBE_be4 _ hclt]
    unfold crc32signed
    intro heq
    have heq2 : c = crc32 (A ++ (u ++ (b ^^^ 2 ^ k) :: v)) :=
      toSigned32_inj _ _ hclt (crc32_lt32 _ hflipbytes) heq
    apply hnecrc
    rw [← hre1, ← hre2, ← heq2, hc]

/-- C3: tamper detection — flipping any single bit of any byte of the
serialized-payload region (the body, between the variable header and the
trailing 4 checksum bytes) of an encoded message makes decode signal the
CRC-mismatch error (`integrityError`); and in general decode of any input
of length at least 20 whose trailing 4 bytes, read as a signed big-endian
32-bit integer, differ from the CRC-32 of all preceding bytes signals
`integrityError`. -/
theorem c3_tamper {P : Type} (C : PayloadCodec P) (t : Nat) (s d : List Nat)
    (p : P) (i k : Nat)
    (ht : t < 65536) (hs : isBytes s) (hd : isBytes d)
    (hpb : isBytes (C.pser p))
    (hvh : s.length + d.length + 2 ≤ 255)
    (hbs : 4 + (C.pser p).length < 4294967296)
    (hi : i < (C.pser p).length) (hk : k < 8) :
    (∀ raw, Message.to_raw C t s d p = some raw →
      Message.to_tuple C
        (flipByteAt raw (13 + (s.length + d.length + 2) + i) k) =
        .error .integrityError) ∧
    (∀ raw : List Nat, ¬(raw.length < 20) →
      msgCrcOf raw ≠ rawCrcOf raw →
      Message.to_tuple C raw = .error .integrityError) := by
  refine ⟨?_, fun raw h20 hne => to_tuple_crc_mismatch C raw h20 hne⟩
  intro raw hraw
  have hcrcB := crc32_lt _ (encPrefix_isBytes C t s d p ht hvh hs hd hpb)
  rw [to_raw_eq C t s d p ht hvh hbs hcrcB,
    packSigned_crc32signed _ hcrcB] at hraw
  injection hraw with hraw
  subst hraw
  have hplsplit : C.pser p =
      (C.pser p).take i ++ (C.pser p)[i] :: (C.pser p).drop (i + 1) := by
    conv_lhs => rw [← List.take_append_drop i (C.pser p)]
    rw [List.drop_eq_getElem_cons hi]
  have he1 : encPrefix C t s d p =
      (encHeader t (C.pser p).length (s.length + d.length + 2) ++ s ++ [0] ++
          d ++ [0]) ++
        ((C.pser p).take i ++ (C.pser p)[i] :: (C.pser p).drop (i + 1)) :=
    congrArg (fun X => (encHeader t (C.pser p).length
      (s.length + d.length + 2) ++ s ++ [0] ++ d ++ [0]) ++ X) hplsplit
  have hAL : (encHeader t (C.pser p).length (s.length + d.length + 2) ++ s ++
      [0] ++ d ++ [0]).length = 13 + (s.length + d.length + 2) := by
    simp [encHeader]
    omega
  have hUL : ((C.pser p).take i).length = i := by
    rw [List.length_take]
    omega
  have hA32 : ∀ a ∈ encHeader t (C.pser p).length (s.length + d.length + 2) ++
      s ++ [0] ++ d ++ [0], a < 4294967296 := by
    intro a ha
    have ham : a ∈ encPrefix C t s d p := List.mem_append.mpr (Or.inl ha)
    have h2 := encPrefix_isBytes C t s d p ht hvh hs hd hpb a ham
    omega
  have hu32 : ∀ a ∈ (C.pser p).take i, a < 4294967296 := by
    intro a ha
    have h2 := hpb a (List.mem_of_mem_take ha)
    omega
  have hv32 : ∀ a ∈ (C.pser p).drop (i + 1), a < 4294967296 := by
    intro a ha
    have h2 := hpb a (List.mem_of_mem_drop ha)
    omega
  have hb256 : (C.pser p)[i] < 256 := hpb _ (List.getElem_mem hi)
  rw [he1] at hcrcB ⊢
  rw [show 13 + (s.length + d.length + 2) + i =
      (encHeader t (C.pser p).length (s.length + d.length + 2) ++ s ++ [0] ++
        d ++ [0]).length + ((C.pser p).take i).length by rw [hAL, hUL]]
  exact to_tuple_flip_body C _ _ _ _ _ k hA32 hu32 hv32 hb256 hk
    (by omega) rfl hcrcB

set_option maxRecDepth 8000 in
/-- C3 witness: flipping bit 0 of the first payload byte (offset 17) of the
encoded `(6000, "a", "b", payload [7])` message makes decode signal the
CRC-mismatch error; and an all-zero 20-byte input, whose trailer disagrees
with the CRC-32 of its first 16 bytes, is likewise rejected with
`integrityError`. -/
theorem c3_tamper_witness :
    Message.to_tuple exCodec
      (flipByteAt [4, 23, 112, 1, 0, 0, 0, 6, 4, 0, 120, 0, 0,
        97, 0, 98, 0, 123, 7, 34, 134, 172, 85] 17 0) =
      .error .integrityError ∧
    Message.to_tuple exCodec
      [0, 0, 0, 0, 0, 0, 0, 0, 0, 0, 0, 0, 0, 0, 0, 0, 0, 0, 0, 0] =
      .error .integrityError :=
  ⟨(c3_tamper exCodec 6000 [97] [98] [7] 0 0 (by decide) (by decide)
      (by decide) (by decide) (by decide) (by decide) (by decide)
      (by decide)).1
      [4, 23, 112, 1, 0, 0, 0, 6, 4, 0, 120, 0, 0,
        97, 0, 98, 0, 123, 7, 34, 134, 172, 85] (by decide),
   (c3_tamper exCodec 6000 [97] [98] [7] 0 0 (by decide) (by decide)
      (by decide) (by decide) (by decide) (by decide) (by decide)
      (by decide)).2
      [0, 0, 0, 0, 0, 0, 0, 0, 0, 0, 0, 0, 0, 0, 0, 0, 0, 0, 0, 0]
      (by decide) (by decide)⟩

/-- C5: the body-size field (bytes 5-7) is never used for validation — for
every accepted input, overwriting bytes 5-7 with any 3-byte value and
recomputing the trailing checksum over the modified preceding bytes yields
an input that decode also accepts, with the same type, sender, destination
and payload. -/
theorem c5_body_size_unchecked {P : Type} (C : PayloadCodec P)
    (raw : List Nat) (res : Nat × List Nat × List Nat × P) (b5 b6 b7 : Nat)
    (hbytes : isBytes raw)
    (hb5 : b5 < 256) (hb6 : b6 < 256) (hb7 : b7 < 256)
    (hne : C.pdeser [] = none)
    (hok : Message.to_tuple C raw = .ok res) :
    Message.to_tuple C (withBodySize raw b5 b6 b7) = .ok res := by
  have h20 : ¬(raw.length < 20) := by
    intro h
    unfold Message.to_tuple at hok
    rw [if_pos h] at hok
    simp at hok
  have hcrceq : msgCrcOf raw = rawCrcOf raw := by
    by_contra hc
    unfold Message.to_tuple at hok
    rw [if_neg h20, if_pos hc] at hok
    simp at hok
  obtain ⟨f0, f1, fs, hsp⟩ : ∃ f0 f1 fs,
      splitOnNul (vheadOf raw) = f0 :: f1 :: fs := by
    rcases hsv : splitOnNul (vheadOf raw) with _ | ⟨g0, gl⟩
    · exact absurd hsv (splitOnNul_ne_nil _)
    · rcases gl with _ | ⟨g1, gs⟩
      · unfold Message.to_tuple at hok
        rw [if_neg h20, if_neg (not_not_intro hcrceq), hsv] at hok
        simp at hok
      · exact ⟨g0, g1, gs, rfl⟩
  obtain ⟨pv, hpv⟩ : ∃ pv, C.pdeser (payloadOf raw) = some pv := by
    rcases hpd : C.pdeser (payloadOf raw) with _ | pv
    · unfold Message.to_tuple at hok
      rw [if_neg h20, if_neg (not_not_intro hcrceq), hsp, hpd] at hok
      simp at hok
    · exact ⟨pv, rfl⟩
  have hres : res = (msgTypeOf raw, f0, f1, pv) := by
    have hmain : Message.to_tuple C raw = .ok (msgTypeOf raw, f0, f1, pv) := by
      unfold Message.to_tuple
      rw [if_neg h20, if_neg (not_not_intro hcrceq), hsp, hpv]
    rw [hmain] at hok
    injection hok with h2
    exact h2.symm
  have hpne : payloadOf raw ≠ [] := by
    intro h
    rw [h, hne] at hpv
    exact absurd hpv (by simp)
  have hvlt : 13 + vheadSizeOf raw < raw.length - 4 := by
    by_contra hv
    apply hpne
    unfold payloadOf
    apply List.drop_eq_nil_of_le
    rw [List.length_take]
    omega
  have hT5 : (raw.take 5).length = 5 := by
    rw [List.length_take]
    omega
  have hXlen : ((raw.take (raw.length - 4)).drop 8).length =
      raw.length - 12 := by
    rw [List.length_drop, List.length_take]
    omega
  have hprelen : (raw.take 5 ++ [b5, b6, b7] ++
      (raw.take (raw.length - 4)).drop 8).length = raw.length - 4 := by
    simp only [List.length_append, hT5, hXlen, List.length_cons,
      List.length_nil]
    omega
  have hrawlen : (withBodySize raw b5 b6 b7).length = raw.length := by
    simp only [withBodySize, List.length_append, hT5, hXlen, packSigned, be4,
      List.length_cons, List.length_nil]
    omega
  have hsub4 : (withBodySize raw b5 b6 b7).length - 4 =
      (raw.take 5 ++ [b5, b6, b7] ++
        (raw.take (raw.length - 4)).drop 8).length := by
    rw [hrawlen, hprelen]
  have htk' : (withBodySize raw b5 b6 b7).take
      ((withBodySize raw b5 b6 b7).length - 4) =
      raw.take 5 ++ [b5, b6, b7] ++ (raw.take (raw.length - 4)).drop 8 := by
    rw [hsub4]
    simp only [withBodySize]
    exact List.take_left _ _
  have hdp' : (withBodySize raw b5 b6 b7).drop
      ((withBodySize raw b5 b6 b7).length - 4) =
      packSigned (crc32signed (raw.take 5 ++ [b5, b6, b7] ++
        (raw.take (raw.length - 4)).drop 8)) := by
    rw [hsub4]
    simp only [withBodySize]
    exact List.drop_left _ _
  have hpre'bytes : isBytes (raw.take 5 ++ [b5, b6, b7] ++
      (raw.take (raw.length - 4)).drop 8) := by
    intro a ha
    simp only [List.mem_append, List.mem_cons, List.not_mem_nil,
      or_false] at ha
    rcases ha with (ha | ha | ha | ha) | ha
    · exact hbytes a (List.mem_of_mem_take ha)
    · omega
    · omega
    · omega
    · exact hbytes a (List.mem_of_mem_take (List.mem_of_mem_drop ha))
  have hcrc' : crc32 (raw.take 5 ++ [b5, b6, b7] ++
      (raw.take (raw.length - 4)).drop 8) < 4294967296 :=
    crc32_lt _ hpre'bytes
  have hcrceq' : msgCrcOf (withBodySize raw b5 b6 b7) =
      rawCrcOf (withBodySize raw b5 b6 b7) := by
    unfold msgCrcOf rawCrcOf
    rw [htk', hdp', packSigned_crc32signed _ hcrc', fromBE_be4 _ hcrc']
    rfl
  have hdrop8 : (raw.take 5 ++ [b5, b6, b7] ++
      (raw.take (raw.length - 4)).drop 8).drop 8 =
      (raw.take (raw.length - 4)).drop 8 :=
    List.drop_left' (by simp [hT5])
  have hE1 : msgTypeOf (withBodySize raw b5 b6 b7) = msgTypeOf raw := by
    unfold msgTypeOf
    congr 1
    have hd1 : (withBodySize raw b5 b6 b7).drop 1 =
        (raw.take 5).drop 1 ++ ([b5, b6, b7] ++
          ((raw.take (raw.length - 4)).drop 8 ++
            packSigned (crc32signed (raw.take 5 ++ [b5, b6, b7] ++
              (raw.take (raw.length - 4)).drop 8)))) := by
      simp only [withBodySize]
      rw [List.append_assoc, List.append_assoc]
      exact List.drop_append_of_le_length (by rw [hT5]; omega)
    rw [hd1,
      List.take_append_of_le_length (by rw [List.length_drop, hT5]; omega),
      List.drop_take, List.take_take]
    congr 1
  have hE2 : vheadSizeOf (withBodySize raw b5 b6 b7) = vheadSizeOf raw := by
    unfold vheadSizeOf
    congr 1
    have hd8 : (withBodySize raw b5 b6 b7).drop 8 =
        (raw.take (raw.length - 4)).drop 8 ++
          packSigned (crc32signed (raw.take 5 ++ [b5, b6, b7] ++
            (raw.take (raw.length - 4)).drop 8)) := by
      simp only [withBodySize]
      rw [List.append_assoc (raw.take 5 ++ [b5, b6, b7])]
      exact List.drop_left' (by simp [hT5])
    rw [hd8,
      List.take_append_of_le_length
        (by rw [List.length_drop, List.length_take]; omega),
      List.drop_take, List.take_take]
    congr 1
    omega
  have hE3 : vheadOf (withBodySize raw b5 b6 b7) = vheadOf raw := by
    unfold vheadOf
    rw [hE2]
    have halt : ∀ l : List Nat, (l.take (13 + vheadSizeOf raw)).drop 13 =
        (l.drop 13).take (vheadSizeOf raw) := by
      intro l
      rw [List.drop_take]
      congr 1
      omega
    rw [halt, halt]
    have hd13 : (withBodySize raw b5 b6 b7).drop 13 =
        (raw.take (raw.length - 4)).drop 13 ++
          packSigned (crc32signed (raw.take 5 ++ [b5, b6, b7] ++
            (raw.take (raw.length - 4)).drop 8)) := by
      simp only [withBodySize]
      rw [List.drop_append_of_le_length (by rw [hprelen]; omega)]
      congr 1
      have t1 : (raw.take 5 ++ [b5, b6, b7] ++
          (raw.take (raw.length - 4)).drop 8).drop 13 =
          ((raw.take 5 ++ [b5, b6, b7] ++
            (raw.take (raw.length - 4)).drop 8).drop 8).drop 5 := by
        rw [List.drop_drop]
      rw [t1, hdrop8, List.drop_drop]
    rw [hd13,
      List.take_append_of_le_length
        (by rw [List.length_drop, List.length_take]; omega),
      List.drop_take, List.take_take]
    congr 1
    omega
  have hE4 : payloadOf (withBodySize raw b5 b6 b7) = payloadOf raw := by
    unfold payloadOf
    rw [hE2, htk']
    have s1 : (raw.take 5 ++ [b5, b6, b7] ++
        (raw.take (raw.length - 4)).drop 8).drop (13 + vheadSizeOf raw) =
        ((raw.take 5 ++ [b5, b6, b7] ++
          (raw.take (raw.length - 4)).drop 8).drop 8).drop
            (5 + vheadSizeOf raw) := by
      rw [List.drop_drop]
      congr 1
      omega
    rw [s1, hdrop8, List.drop_drop]
    congr 1
    omega
  have h20' : ¬((withBodySize raw b5 b6 b7).length < 20) := by
    rw [hrawlen]
    exact h20
  unfold Message.to_tuple
  rw [if_neg h20', if_neg (not_not_intro hcrceq')]
  simp only [hE3, hsp, hE4, hpv, hE1]
  rw [hres]

set_option maxRecDepth 8000 in
/-- C5 witness: overwriting bytes 5-7 of the encoded
`(6000, "a", "b", payload [7])` message with `9, 9, 9` and recomputing the
trailing checksum leaves the decoded tuple unchanged. -/
theorem c5_body_size_unchecked_witness :
    Message.to_tuple exCodec
      (withBodySize [4, 23, 112, 1, 0, 0, 0, 6, 4, 0, 120, 0, 0,
        97, 0, 98, 0, 123, 7, 34, 134, 172, 85] 9 9 9) =
      .ok (6000, [97], [98], [7]) :=
  c5_body_size_unchecked exCodec
    [4, 23, 112, 1, 0, 0, 0, 6, 4, 0, 120, 0, 0,
      97, 0, 98, 0, 123, 7, 34, 134, 172, 85]
    (6000, [97], [98], [7]) 9 9 9 (by decide) (by decide) (by decide)
    (by decide) rfl rfl

end MsgLib
